import Mathlib

/-!
# Verification of the pip-manager core against its specification

Shallow embedding of the core managers of the repository
(`src/core/mirror_manager.py`, `src/core/config_manager.py`,
`src/core/env_manager.py`, `src/core/package_manager.py`) and proofs
about the claims of the specification.

Python dictionaries are modelled as insertion-ordered association lists
(`List (String × α)`); filesystem and subprocess effects are passed in as
explicit oracle arguments (a set of existing paths, exit codes, captured
output, or an `Except` value for primitives whose exceptions matter).
-/

set_option autoImplicit false

namespace PipM

/-- Lookup in a Python-dict model: the value stored under key `k`. -/
def dlookup {α : Type} (k : String) : List (String × α) → Option α
  | [] => none
  | e :: t => if e.1 = k then some e.2 else dlookup k t

/-- Python dict assignment `d[k] = v`: overwrite in place if the key exists,
otherwise append (insertion order is preserved). -/
def dinsert {α : Type} (k : String) (v : α) : List (String × α) → List (String × α)
  | [] => [(k, v)]
  | e :: t => if e.1 = k then (k, v) :: t else e :: dinsert k v t

/-- Python `del d[k]`: remove the (unique) entry with key `k`. -/
def derase {α : Type} (k : String) : List (String × α) → List (String × α)
  | [] => []
  | e :: t => if e.1 = k then t else e :: derase k t

/-- Keys of a dict model, in insertion order. -/
def dkeys {α : Type} (l : List (String × α)) : List String := l.map Prod.fst

/-- `os.path.join` for the relative joins the code performs. -/
def pjoin (a b : String) : String := if a = "" then b else a ++ "/" ++ b

/-- Character-list core of Python `str.startswith`. -/
def chars_startswith : List Char → List Char → Bool
  | [], _ => true
  | _ :: _, [] => false
  | p :: ps, c :: cs => p == c && chars_startswith ps cs

/-- Python `s.startswith(p)`. -/
def startswith (s p : String) : Bool := chars_startswith p.data s.data

/-- Character-list core of Python `pat in s` (substring containment). -/
def chars_contains_sub (pat : List Char) : List Char → Bool
  | [] => chars_startswith pat []
  | c :: t => chars_startswith pat (c :: t) || chars_contains_sub pat t

/-- Python `pat in s` on strings. -/
def contains_sub (s pat : String) : Bool := chars_contains_sub pat.data s.data

/-- Python `s.strip()`: whitespace removed from both ends. -/
def strip (s : String) : String :=
  ⟨((s.data.dropWhile Char.isWhitespace).reverse.dropWhile Char.isWhitespace).reverse⟩

/-- Drop the first `n` characters of a string. -/
def sdrop (s : String) (n : Nat) : String := ⟨s.data.drop n⟩

/-- Python `s.replace(f, t)` for single-character `f`/`t`. -/
def replace_char (s : String) (f t : Char) : String :=
  ⟨s.data.map (fun c => if c = f then t else c)⟩

end PipM

/-! ## Mirror registry (`src/core/mirror_manager.py`) -/

namespace MirrorManager

open PipM

/-- The built-in official index, `MirrorManager.OFFICIAL_MIRROR`. -/
def OFFICIAL_MIRROR : String × String := ("PyPI官方", "https://pypi.org/simple")

/-- The built-in default mirror set, `MirrorManager.DEFAULT_MIRRORS`
(insertion order as in the source). -/
def DEFAULT_MIRRORS : List (String × String) :=
  [("清华大学", "https://pypi.tuna.tsinghua.edu.cn/simple"),
   ("阿里云", "https://mirrors.aliyun.com/pypi/simple"),
   ("华为云", "https://repo.huaweicloud.com/repository/pypi/simple"),
   ("中国科技大学", "https://pypi.mirrors.ustc.edu.cn/simple"),
   ("豆瓣", "https://pypi.doubanio.com/simple")]

/-- In-memory state of a `MirrorManager`: the user-mirror dict `self.mirrors`
and `self.current_mirror`. -/
structure MirrorState where
  mirrors : List (String × String)
  current : Option (String × String)
  deriving DecidableEq, Repr

/-- The persisted mirror configuration document as `load_mirrors` may find it:
the file may be absent, unreadable/unparsable (any exception inside the
`try`), or a parsed document `{mirrors: {...}, current: name-or-null}`. -/
inductive MirrorDisk where
  | absent
  | corrupt
  | doc (mirrors : List (String × String)) (current : Option String)
  deriving DecidableEq, Repr

/-- Resolution of the persisted `current` name against the loaded mirror dict,
as in `load_mirrors`: the official name always resolves to the official
mirror; a non-empty name resolves through `self.mirrors`; `None`, the empty
string (falsy) and unregistered names do not resolve. -/
def resolve_current (cur : Option String) (ms : List (String × String)) :
    Option (String × String) :=
  match cur with
  | none => none
  | some c =>
    if c = OFFICIAL_MIRROR.1 then some OFFICIAL_MIRROR
    else if c = "" then none
    else match dlookup c ms with
      | some url => some (c, url)
      | none => none

/-- `MirrorManager.load_mirrors`, starting from the freshly constructed state
(`mirrors = {}`, `current_mirror = None`).  A corrupt file raises inside the
`try`, landing in the `except` branch that installs the defaults; an absent
or empty-`mirrors` document falls into the `if not self.mirrors` branch. -/
def load_mirrors (d : MirrorDisk) : MirrorState :=
  match d with
  | .corrupt => { mirrors := DEFAULT_MIRRORS, current := some ("清华大学", "https://pypi.tuna.tsinghua.edu.cn/simple") }
  | .absent => { mirrors := DEFAULT_MIRRORS, current := some ("清华大学", "https://pypi.tuna.tsinghua.edu.cn/simple") }
  | .doc ms cur =>
    let c1 := resolve_current cur ms
    if ms = [] then
      { mirrors := DEFAULT_MIRRORS,
        current := match c1 with
          | none => some ("清华大学", "https://pypi.tuna.tsinghua.edu.cn/simple")
          | some x => some x }
    else { mirrors := ms, current := c1 }

/-- `MirrorManager.add_mirror`. -/
def add_mirror (s : MirrorState) (name url : String) : Bool × MirrorState :=
  if (dlookup name s.mirrors).isSome then (false, s)
  else if !(startswith url "http://" || startswith url "https://") then (false, s)
  else (true, { s with mirrors := dinsert name url s.mirrors })

/-- `MirrorManager.remove_mirror`. -/
def remove_mirror (s : MirrorState) (name : String) : Bool × MirrorState :=
  if !(dlookup name s.mirrors).isSome then (false, s)
  else (true, { s with mirrors := derase name s.mirrors })

/-- `MirrorManager.get_current_mirror`. -/
def get_current_mirror (s : MirrorState) : Option (String × String) := s.current

/-- `MirrorManager.set_current_mirror`. -/
def set_current_mirror (s : MirrorState) (name : String) : Bool × MirrorState :=
  if name = OFFICIAL_MIRROR.1 then (true, { s with current := some OFFICIAL_MIRROR })
  else match dlookup name s.mirrors with
    | none => (false, s)
    | some url => (true, { s with current := some (name, url) })

/-- `MirrorManager.get_mirror_list`: official mirror first, then user mirrors. -/
def get_mirror_list (s : MirrorState) : List (String × String) :=
  OFFICIAL_MIRROR :: s.mirrors

end MirrorManager

/-! ## Configuration store (`src/core/config_manager.py`) -/

namespace ConfigManager

open PipM

/-- A JSON-compatible value, the contents of a configuration document. -/
inductive JVal where
  | str (s : String)
  | num (n : Int)
  | bool (b : Bool)
  | null
  | arr (l : List JVal)
  | obj (l : List (String × JVal))

/-- The on-disk state of one configuration domain as `load_config` may find
it: missing file, a file whose read/parse raises, or a parsed JSON mapping. -/
inductive ConfigFile where
  | absent
  | corrupt
  | doc (d : List (String × JVal))

/-- `ConfigManager.load_config`: returns the parsed document, or `None` when
the file does not exist or reading/parsing raises (the exception is caught
and logged). -/
def load_config (f : ConfigFile) : Option (List (String × JVal)) :=
  match f with
  | .absent => none
  | .corrupt => none
  | .doc d => some d

/-- Python `dict.update(updates)`: shallow merge, existing keys overwritten
in place, new keys appended in `updates` order. -/
def dict_update (cur updates : List (String × JVal)) : List (String × JVal) :=
  updates.foldl (fun acc e => dinsert e.1 e.2 acc) cur

/-- `ConfigManager.update_config`: load the current document (load failure
means overall failure and nothing written), merge the partial fields, save.
`saveOk` is the outcome of the `save_config` file write; the second
component is the document written to disk (`none` = no write attempted). -/
def update_config (f : ConfigFile) (updates : List (String × JVal)) (saveOk : Bool) :
    Bool × Option (List (String × JVal)) :=
  match load_config f with
  | none => (false, none)
  | some cur =>
    let merged := dict_update cur updates
    (saveOk, some merged)

end ConfigManager

/-! ## Environment registry (`src/core/env_manager.py`) -/

namespace EnvManager

open PipM

/-- One registry entry, `self.envs[name]`:
`{path, description, created_at}`. -/
structure EnvEntry where
  path : String
  description : String
  created_at : String
  deriving DecidableEq, Repr

/-- In-memory state of an `EnvManager`: the managed environments directory
`self.envs_dir` and the registry dict `self.envs`. -/
structure EnvState where
  envs_dir : String
  envs : List (String × EnvEntry)
  deriving DecidableEq, Repr

/-- The record returned by `get_env_info`. -/
structure EnvInfo where
  name : String
  path : String
  python_path : String
  version : String
  description : String
  created_at : String
  deriving DecidableEq, Repr

/-- Paths removed by deleting the directory tree rooted at `d`
(`shutil.rmtree` / the Windows file-by-file walk): `d` itself and
everything below it. -/
def removeTree (d : String) (fs : List String) : List String :=
  fs.filter (fun p => !(p = d || startswith p (d ++ "/")))

/-- `EnvManager.get_env_python_path`: resolve the interpreter inside the
environment's root by trying the platform-specific candidate list and
returning the first that exists.  `fsExists` is the `os.path.exists`
oracle, `windows` selects the `os.name == 'nt'` branch.  The whole body is
inside `try/except`, so the operation never raises. -/
def get_env_python_path (s : EnvState) (fsExists : String → Bool) (windows : Bool)
    (env_name : String) : Except String (Option String) :=
  match dlookup env_name s.envs with
  | none => .ok none
  | some info =>
    if info.path = "" then .ok none
    else
      let candidates :=
        if windows then
          [pjoin (pjoin info.path "Scripts") "python.exe",
           pjoin info.path "python.exe",
           pjoin (pjoin info.path "bin") "python.exe"]
        else
          [pjoin (pjoin info.path "bin") "python",
           pjoin info.path "python"]
      .ok (candidates.find? fsExists)

/-- `EnvManager.get_env_info`: absent for an unregistered name or when
interpreter resolution fails; otherwise the stored metadata plus a live
version field from `python --version` (exit code `verRC`, stdout
`verStdout`; nonzero exit yields the literal "未知"). -/
def get_env_info (s : EnvState) (fsExists : String → Bool) (windows : Bool)
    (verRC : Bool) (verStdout : String) (env_name : String) :
    Except String (Option EnvInfo) :=
  match dlookup env_name s.envs with
  | none => .ok none
  | some info =>
    match get_env_python_path s fsExists windows env_name with
    | .error e => .error e
    | .ok none => .ok none
    | .ok (some py) =>
      .ok (some { name := env_name, path := info.path, python_path := py,
                  version := if verRC then strip verStdout else "未知",
                  description := info.description, created_at := info.created_at })

/-- `EnvManager.create_env`: fails if the name is registered; runs
`python -m venv path/name` (exit flag `venvRC`; on success the tree at
`path/name` appears on disk); registers `{path: path/name, description,
created_at: now}` and saves.  The subprocess call, registration and
`save_config` are all inside the method's `try`, so an exception from the
save (`saveRes = .error`) is caught and reported as a `False` return — but
the in-memory registry keeps the new entry. -/
def create_env (s : EnvState) (fs : List String) (venvRC : Bool)
    (saveRes : Except String Unit) (now : String)
    (env_name path description : String) :
    Except String (Bool × EnvState × List String) :=
  if (dlookup env_name s.envs).isSome then .ok (false, s, fs)
  else
    let venv_path := pjoin path env_name
    if !venvRC then .ok (false, s, fs)
    else
      let s2 := { s with envs := dinsert env_name ⟨venv_path, description, now⟩ s.envs }
      let fs2 := venv_path :: fs
      match saveRes with
      | .error _ => .ok (false, s2, fs2)
      | .ok _ => .ok (true, s2, fs2)

/-- `EnvManager.delete_env`: fails if the name is unregistered; removes the
directory tree at `envs_dir/name` when it exists (removal errors are caught
and abort the operation with `False`, the registry untouched); then deletes
the registry entry and calls `save_config` — the last two statements are
OUTSIDE any `try`, so an exception raised by the save propagates to the
caller (`.error`). -/
def delete_env (s : EnvState) (fs : List String)
    (rmtreeRes saveRes : Except String Unit) (env_name : String) :
    Except String (Bool × EnvState × List String) :=
  if !(dlookup env_name s.envs).isSome then .ok (false, s, fs)
  else
    let env_dir := pjoin s.envs_dir env_name
    if fs.contains env_dir then
      match rmtreeRes with
      | .error _ => .ok (false, s, fs)
      | .ok _ =>
        match saveRes with
        | .error e => .error e
        | .ok _ => .ok (true, { s with envs := derase env_name s.envs },
                        removeTree env_dir fs)
    else
      match saveRes with
      | .error e => .error e
      | .ok _ => .ok (true, { s with envs := derase env_name s.envs }, fs)

/-- `EnvManager.import_env`: fails if the name is registered; `os.makedirs`
of `envs_dir/name` when missing is OUTSIDE any `try` (its exception
propagates); `shutil.copytree` is inside a `try` (failure returns `False`);
registration and `save_config` are again outside any `try`, so a save
exception propagates. -/
def import_env (s : EnvState) (fs : List String)
    (makedirsRes copyRes saveRes : Except String Unit)
    (now source_path env_name : String) :
    Except String (Bool × EnvState × List String) :=
  if (dlookup env_name s.envs).isSome then .ok (false, s, fs)
  else
    let env_dir := pjoin s.envs_dir env_name
    let mk : Except String (List String) :=
      if fs.contains env_dir then .ok fs
      else match makedirsRes with
        | .error e => .error e
        | .ok _ => .ok (env_dir :: fs)
    match mk with
    | .error e => .error e
    | .ok fs2 =>
      match copyRes with
      | .error _ => .ok (false, s, fs2)
      | .ok _ =>
        let entry : EnvEntry := ⟨env_dir, "从 " ++ source_path ++ " 导入", now⟩
        let s2 := { s with envs := dinsert env_name entry s.envs }
        match saveRes with
        | .error e => .error e
        | .ok _ => .ok (true, s2, fs2)

end EnvManager

/-! ## Package operations engine (`src/core/package_manager.py`) -/

namespace PackageManager

open PipM

/-- The events a `PackageManager` emits through its Qt signals, in emission
order. `loaded` carries the dict-of-dicts payload of `package_loaded`. -/
inductive PMEvent where
  | progress (n : Nat)
  | loaded (pkgs : List (String × List (String × String)))
  | loadError (msg : String)
  | installed (name : String)
  | installError (msg : String)
  | uninstalled (name : String)
  | uninstallError (msg : String)
  | upgraded (name : String)
  | upgradeError (msg : String)
  deriving DecidableEq, Repr

/-- Python `'==' in package_name`: whether the spec carries an exact-version
pin. -/
def pinned (package_name : String) : Bool := contains_sub package_name "=="

/-- Result of one install/uninstall/upgrade call: the command line handed to
`subprocess.run`, the boolean return value, and the emitted events. -/
structure OpResult where
  cmd : List String
  ok : Bool
  events : List PMEvent
  deriving DecidableEq, Repr

/-- `PackageManager.install_package`: build
`[python, -m, pip, install] (+ --upgrade when unpinned) + [name]`, run it
(exit flag `rc`, captured stderr), emit progress 0/100 and one terminal
event on the install channels. -/
def install_package (python_path package_name : String) (rc : Bool) (stderr : String) :
    OpResult :=
  let cmd := [python_path, "-m", "pip", "install"]
    ++ (if pinned package_name then [] else ["--upgrade"]) ++ [package_name]
  if rc then
    { cmd := cmd, ok := true,
      events := [.progress 0, .progress 100, .installed package_name] }
  else
    { cmd := cmd, ok := false,
      events := [.progress 0, .progress 100,
                 .installError ("安装包失败: " ++ stderr)] }

/-- `PackageManager.upgrade_package`: always
`[python, -m, pip, install, --upgrade, name]`, reporting on the upgrade
channels. -/
def upgrade_package (python_path package_name : String) (rc : Bool) (stderr : String) :
    OpResult :=
  let cmd := [python_path, "-m", "pip", "install", "--upgrade", package_name]
  if rc then
    { cmd := cmd, ok := true,
      events := [.progress 0, .progress 100, .upgraded package_name] }
  else
    { cmd := cmd, ok := false,
      events := [.progress 0, .progress 100,
                 .upgradeError ("更新包失败: " ++ stderr)] }

/-- The `pip show` line scan inside `load_packages`: every line starting
with `Location:` updates the location (text after the first colon,
stripped) and recomputes the install timestamp from the filesystem creation
time of `location/name`, falling back to `location/name` with hyphens
replaced by underscores; when neither directory exists the previous
timestamp value is kept.  `fsExists` models `os.path.exists`, `ctime` the
formatted `os.path.getctime` result. -/
def parse_show_lines (lines : List String) (fsExists : String → Bool)
    (ctime : String → String) (name : String) : String × String :=
  lines.foldl
    (fun acc line =>
      if startswith line "Location:" then
        let location := strip (sdrop line 9)
        let p1 := pjoin location name
        if fsExists p1 then (location, ctime p1)
        else
          let p2 := pjoin location (replace_char name '-' '_')
          if fsExists p2 then (location, ctime p2)
          else (location, acc.2)
      else acc)
    ("", "")

/-- The three-key record `load_packages` stores for one package:
`{'version': ..., 'location': ..., 'install_time': ...}` (note: no
`requires`, no `parent`).  `showRes` is the `pip show` oracle (exit flag
and stdout lines). -/
def load_record (showRes : String → Bool × List String) (fsExists : String → Bool)
    (ctime : String → String) (name version : String) : List (String × String) :=
  let r := showRes name
  let li := if r.1 then parse_show_lines r.2 fsExists ctime name else ("", "")
  [("version", version), ("location", li.1), ("install_time", li.2)]

/-- `PackageManager.load_packages`, as the ordered list of emitted events.
`listRC`/`listStderr` are the `pip list` exit flag and stderr; `listJson`
is the parsed JSON listing (`none` = `json.JSONDecodeError`, whose message
is `parseErr`); `cancelAt = some c` means the cooperative cancel flag reads
`False` from loop iteration `c` on.  The `finally` block emits a trailing
`progress 100` on every path. -/
def load_packages (listRC : Bool) (listStderr : String)
    (listJson : Option (List (String × String))) (parseErr : String)
    (showRes : String → Bool × List String) (fsExists : String → Bool)
    (ctime : String → String) (cancelAt : Option Nat) : List PMEvent :=
  let pre := [PMEvent.progress 0, PMEvent.progress 25]
  if !listRC then pre ++ [.loadError ("获取包列表失败: " ++ listStderr), .progress 100]
  else
    match listJson with
    | none => pre ++ [.loadError ("解析包列表失败: " ++ parseErr), .progress 100]
    | some pkgs =>
      let n := pkgs.length
      let k := match cancelAt with | none => n | some c => min c n
      let prog := (List.range k).map (fun i => PMEvent.progress (25 + ((i + 1) * 75) / n))
      if k < n then pre ++ prog ++ [.progress 100]
      else
        let recs := pkgs.foldl
          (fun acc e => dinsert e.1 (load_record showRes fsExists ctime e.1 e.2) acc) []
        pre ++ prog ++ [.loaded recs, .progress 100]

/-- The record stored by `_process_package` in `self.package_info`:
version, location, best-effort install time, declared requirements, row
index and parent back-reference. -/
structure PkgInfo where
  version : String
  location : String
  install_time : Option String
  requires : List String
  row : Nat
  parent : Option String
  deriving DecidableEq, Repr

/-- In-place update `self.package_info[req]['parent'] = name`. -/
def set_parent (req name : String) (m : List (String × PkgInfo)) :
    List (String × PkgInfo) :=
  m.map (fun e => if e.1 = req then (e.1, { e.2 with parent := some name }) else e)

/-- The inner loop of `_process_package_relationships`: for each declared
requirement of package `name` that is a key of the map, record `name` as
its parent. -/
def rel_step (acc : List (String × PkgInfo)) (name : String) (reqs : List String) :
    List (String × PkgInfo) :=
  reqs.foldl
    (fun a req => if (dlookup req a).isSome then set_parent req name a else a) acc

/-- `PackageManager._process_package_relationships`: iterate over the
entries of `self.package_info` (insertion order), linking each requirement
that is itself an installed package to the requiring package. -/
def process_package_relationships (m : List (String × PkgInfo)) :
    List (String × PkgInfo) :=
  m.foldl (fun a e => rel_step a e.1 e.2.requires) m

/-- Relabelling of upgrade-channel events as install-channel events with the
same payload: the meaning of "the two operations differ only in which
success/failure event channel they report on". -/
def relabel_upgrade_as_install : PMEvent → PMEvent
  | .upgraded s => .installed s
  | .upgradeError m => .installError m
  | e => e

/-- The sequence of emitted progress values in an event trace. -/
def progress_vals (tr : List PMEvent) : List Nat :=
  tr.filterMap (fun e => match e with | .progress n => some n | _ => none)

/-- Whether an event is the final result event (`package_loaded`). -/
def is_loaded_event : PMEvent → Bool
  | .loaded _ => true
  | _ => false

end PackageManager

/-! ## Dictionary lemmas -/

namespace PipM

@[simp] theorem dlookup_nil {α : Type} (k : String) : dlookup (α := α) k [] = none := rfl

@[simp] theorem dlookup_cons {α : Type} (k : String) (e : String × α) (t : List (String × α)) :
    dlookup k (e :: t) = if e.1 = k then some e.2 else dlookup k t := rfl

theorem dlookup_eq_none_of_not_mem {α : Type} (k : String) (l : List (String × α))
    (h : k ∉ dkeys l) : dlookup k l = none := by
  induction l with
  | nil => rfl
  | cons e t ih =>
    simp only [dkeys, List.map_cons, List.mem_cons, not_or] at h
    rw [dlookup_cons, if_neg (fun he => h.1 he.symm), ih h.2]

theorem not_mem_of_dlookup_eq_none {α : Type} {k : String} {l : List (String × α)}
    (h : dlookup k l = none) : k ∉ dkeys l := by
  induction l with
  | nil => simp [dkeys]
  | cons e t ih =>
    simp only [dlookup_cons] at h
    by_cases he : e.1 = k
    · rw [if_pos he] at h; exact absurd h (by simp)
    · rw [if_neg he] at h
      simp only [dkeys, List.map_cons, List.mem_cons, not_or]
      exact ⟨fun hk => he hk.symm, ih h⟩

theorem dlookup_derase_self {α : Type} (k : String) (l : List (String × α))
    (h : (dkeys l).Nodup) : dlookup k (derase k l) = none := by
  induction l with
  | nil => rfl
  | cons e t ih =>
    simp only [dkeys, List.map_cons, List.nodup_cons] at h
    by_cases hk : e.1 = k
    · subst hk
      simp only [derase, if_pos rfl]
      exact dlookup_eq_none_of_not_mem _ _ h.1
    · simp only [derase, if_neg hk, dlookup_cons, if_neg hk]
      exact ih h.2

theorem mem_dkeys_dinsert {α : Type} (x k : String) (v : α) (l : List (String × α))
    (h : x ∈ dkeys (dinsert k v l)) : x = k ∨ x ∈ dkeys l := by
  induction l with
  | nil => simpa [dinsert, dkeys] using h
  | cons e t ih =>
    by_cases he : e.1 = k
    · simp only [dinsert, if_pos he, dkeys, List.map_cons, List.mem_cons] at h ⊢
      rcases h with h | h
      · exact .inl h
      · exact .inr (.inr h)
    · simp only [dinsert, if_neg he, dkeys, List.map_cons, List.mem_cons] at h ⊢
      rcases h with h | h
      · exact .inr (.inl h)
      · rcases ih h with h' | h'
        · exact .inl h'
        · exact .inr (.inr h')

theorem nodup_dkeys_dinsert {α : Type} (k : String) (v : α) (l : List (String × α))
    (h : (dkeys l).Nodup) : (dkeys (dinsert k v l)).Nodup := by
  induction l with
  | nil => simp [dinsert, dkeys]
  | cons e t ih =>
    simp only [dkeys, List.map_cons, List.nodup_cons] at h
    by_cases he : e.1 = k
    · simp only [dinsert, if_pos he, dkeys, List.map_cons, List.nodup_cons]
      exact ⟨he ▸ h.1, h.2⟩
    · simp only [dinsert, if_neg he, dkeys, List.map_cons, List.nodup_cons]
      refine ⟨fun hm => ?_, ih h.2⟩
      rcases mem_dkeys_dinsert _ _ _ _ hm with h' | h'
      · exact he h'
      · exact h.1 h'

end PipM

/-! ## Claims about the mirror registry -/

namespace MirrorManager

open PipM

/-- Claim C4, counterexample: `add_mirror` does NOT reserve the official
mirror's name.  On the default registry (which does not contain the
official name), `add_mirror("PyPI官方", "https://example.com/simple")`
succeeds and a user-added entry now carries the official mirror's name,
contradicting the claim that such an `add` fails. -/
theorem c4_counterexample :
    (add_mirror ⟨DEFAULT_MIRRORS, some ("清华大学", "https://pypi.tuna.tsinghua.edu.cn/simple")⟩
        "PyPI官方" "https://example.com/simple").1 = true
    ∧ dlookup "PyPI官方"
        (add_mirror ⟨DEFAULT_MIRRORS, some ("清华大学", "https://pypi.tuna.tsinghua.edu.cn/simple")⟩
          "PyPI官方" "https://example.com/simple").2.mirrors
      = some "https://example.com/simple" := by
  constructor <;> decide

/-- Claim C4 (amended): names are unique among user-added mirrors —
`add_mirror(name, url)` succeeds exactly when `name` is not an
already-registered user mirror and `url` has an `http(s)://` scheme, and
uniqueness of user-mirror names is preserved; the official mirror's name is
NOT reserved, so a user-added entry may carry it. -/
theorem c4_add_mirror_unique_user_names (s : MirrorState) (name url : String)
    (hnd : (dkeys s.mirrors).Nodup) :
    ((add_mirror s name url).1 = true ↔
      dlookup name s.mirrors = none
        ∧ (startswith url "http://" || startswith url "https://") = true)
    ∧ (dkeys (add_mirror s name url).2.mirrors).Nodup := by
  unfold add_mirror
  cases hl : dlookup name s.mirrors with
  | some u =>
    simp only [hl, Option.isSome_some, if_pos]
    exact ⟨by simp, hnd⟩
  | none =>
    simp only [hl, Option.isSome_none, Bool.false_eq_true, if_false]
    cases hu : (startswith url "http://" || startswith url "https://") with
    | false => simp [hu, hnd]
    | true => simp [hu, nodup_dkeys_dinsert _ _ _ hnd]

/-- Witness for C4 (amended) at a concrete state. -/
theorem c4_witness :
    (dkeys ([] : List (String × String))).Nodup
    ∧ (((add_mirror ⟨[], none⟩ "X" "https://y").1 = true ↔
          dlookup "X" ([] : List (String × String)) = none
            ∧ (startswith "https://y" "http://" || startswith "https://y" "https://") = true)
        ∧ (dkeys (add_mirror ⟨[], none⟩ "X" "https://y").2.mirrors).Nodup) :=
  ⟨by decide, c4_add_mirror_unique_user_names ⟨[], none⟩ "X" "https://y" (by decide)⟩

/-- Claim C5, counterexample: a well-formed persisted document with a
non-empty mirror map whose `current` name is unregistered leaves NO current
mirror after `load_mirrors` — the claimed fallback to a default choice does
not happen on this path. -/
theorem c5_counterexample :
    (load_mirrors (.doc [("X", "https://x")] (some "nope"))).current = none := by
  rfl

/-- Claim C5 (amended): after `load_mirrors` the mirror map is never empty,
but exactly one mirror being current holds only partially: the current
mirror is absent after load precisely when the persisted document parsed to
a non-empty mirror map whose persisted `current` name does not resolve
(missing, empty, or unregistered and not the official name); on every other
input (missing file, corrupt file, empty mirror map) the defaults are
restored and a default current mirror is chosen. -/
theorem c5_load_mirrors_current (d : MirrorDisk) :
    (load_mirrors d).mirrors ≠ []
    ∧ ((load_mirrors d).current = none ↔
        ∃ ms cur, d = .doc ms cur ∧ ms ≠ [] ∧ resolve_current cur ms = none) := by
  cases d with
  | absent => exact ⟨by simp [load_mirrors, DEFAULT_MIRRORS], by simp [load_mirrors]⟩
  | corrupt => exact ⟨by simp [load_mirrors, DEFAULT_MIRRORS], by simp [load_mirrors]⟩
  | doc ms cur =>
    by_cases hms : ms = []
    · subst hms
      refine ⟨by simp [load_mirrors, DEFAULT_MIRRORS], ?_⟩
      constructor
      · intro h
        exfalso
        simp only [load_mirrors] at h
        cases hr : resolve_current cur [] with
        | none => rw [hr] at h; simp at h
        | some x => rw [hr] at h; simp at h
      · rintro ⟨ms', cur', hd, hne, _⟩
        exact absurd (congrArg (fun x => match x with
          | MirrorDisk.doc m _ => m
          | _ => []) hd).symm (by simp only []; exact hne)
    · refine ⟨by simp only [load_mirrors, if_neg hms]; exact hms, ?_⟩
      simp only [load_mirrors, if_neg hms]
      constructor
      · intro h
        exact ⟨ms, cur, rfl, hms, h⟩
      · rintro ⟨ms', cur', hd, _, hr⟩
        injection hd with h1 h2
        subst h1; subst h2
        exact hr

/-- Claim C7: switching to the official mirror always succeeds whatever the
registry contains; switching to a name that is neither the official name
nor a registered user mirror fails and returns the state unchanged (so the
previous current mirror is kept). -/
theorem c7_set_current_mirror (s : MirrorState) (name : String)
    (h1 : name ≠ OFFICIAL_MIRROR.1) (h2 : dlookup name s.mirrors = none) :
    (set_current_mirror s OFFICIAL_MIRROR.1).1 = true
    ∧ set_current_mirror s name = (false, s) := by
  constructor
  · simp [set_current_mirror]
  · simp [set_current_mirror, h1, h2]

/-- Witness for C7 at a concrete state. -/
theorem c7_witness :
    ("nonexistent" ≠ OFFICIAL_MIRROR.1
      ∧ dlookup "nonexistent" ([] : List (String × String)) = none)
    ∧ ((set_current_mirror ⟨[], none⟩ OFFICIAL_MIRROR.1).1 = true
        ∧ set_current_mirror ⟨[], none⟩ "nonexistent" = (false, ⟨[], none⟩)) :=
  ⟨⟨by decide, rfl⟩, c7_set_current_mirror ⟨[], none⟩ "nonexistent" (by decide) rfl⟩

/-- Claim C10: `remove_mirror` mutates only the user-mirror map.  A
successful removal returns success, leaves `get_current_mirror` exactly
what it was before, and the removed name is no longer registered — so when
the removed mirror was current, the current mirror now names an
unregistered mirror. -/
theorem c10_remove_mirror_frame (s : MirrorState) (name url : String)
    (h : dlookup name s.mirrors = some url) (hnd : (dkeys s.mirrors).Nodup) :
    (remove_mirror s name).1 = true
    ∧ get_current_mirror (remove_mirror s name).2 = get_current_mirror s
    ∧ dlookup name (remove_mirror s name).2.mirrors = none := by
  have hs : (dlookup name s.mirrors).isSome = true := by rw [h]; rfl
  refine ⟨?_, ?_, ?_⟩ <;>
    simp [remove_mirror, hs, get_current_mirror, dlookup_derase_self _ _ hnd]

/-- Witness for C10: the removed mirror is the current mirror; afterwards
the current mirror still names it although it is unregistered. -/
theorem c10_witness :
    (dlookup "X" [("X", "https://x")] = some "https://x"
      ∧ (dkeys [("X", "https://x")]).Nodup)
    ∧ ((remove_mirror ⟨[("X", "https://x")], some ("X", "https://x")⟩ "X").1 = true
        ∧ get_current_mirror (remove_mirror ⟨[("X", "https://x")], some ("X", "https://x")⟩ "X").2
            = get_current_mirror ⟨[("X", "https://x")], some ("X", "https://x")⟩
        ∧ dlookup "X" (remove_mirror ⟨[("X", "https://x")], some ("X", "https://x")⟩ "X").2.mirrors
            = none) :=
  ⟨⟨rfl, by decide⟩,
    c10_remove_mirror_frame ⟨[("X", "https://x")], some ("X", "https://x")⟩ "X"
      "https://x" rfl (by decide)⟩

end MirrorManager

/-! ## Claim about the configuration store -/

namespace ConfigManager

/-- Claim C8: when the configuration document for a domain is missing or
fails to parse, `load_config` returns absent (without raising), and
consequently `update_config` returns failure and performs no write
(`none` in the written-document slot), whatever the partial fields and
whatever the would-be save outcome. -/
theorem c8_load_failure_update_fails (f : ConfigFile) (upd : List (String × JVal))
    (saveOk : Bool) (h : f = .absent ∨ f = .corrupt) :
    load_config f = none ∧ update_config f upd saveOk = (false, none) := by
  rcases h with h | h <;> subst h <;> exact ⟨rfl, rfl⟩

/-- Witness for C8 at the missing-file case. -/
theorem c8_witness :
    (ConfigFile.absent = ConfigFile.absent ∨ ConfigFile.absent = ConfigFile.corrupt)
    ∧ (load_config .absent = none ∧ update_config .absent [] true = (false, none)) :=
  ⟨Or.inl rfl, c8_load_failure_update_fails .absent [] true (Or.inl rfl)⟩

end ConfigManager

/-! ## Claims about the environment registry -/

namespace EnvManager

open PipM

/-- Claim C1, counterexample: `create_env("e", "home/projects", "")`
registers the root `r = home/projects/e` (which the venv tool creates on
disk), but `delete_env("e")` removes the tree at `envs_dir/e`
(`appdata/envs/e` here), NOT the registered root: it reports success,
removes the registry entry, and the tree rooted at `r` is still on disk
afterwards — so the claim that `delete` removes the tree rooted at `r`
fails. -/
theorem c1_counterexample :
    create_env ⟨"appdata/envs", []⟩ [] true (.ok ()) "2026-01-01 00:00:00"
        "e" "home/projects" ""
      = .ok (true, ⟨"appdata/envs", [("e", ⟨"home/projects/e", "", "2026-01-01 00:00:00"⟩)]⟩,
             ["home/projects/e"])
    ∧ delete_env ⟨"appdata/envs", [("e", ⟨"home/projects/e", "", "2026-01-01 00:00:00"⟩)]⟩
        ["home/projects/e"] (.ok ()) (.ok ()) "e"
      = .ok (true, ⟨"appdata/envs", []⟩, ["home/projects/e"])
    ∧ (["home/projects/e"].contains "home/projects/e") = true := by
  refine ⟨?_, ?_, ?_⟩ <;> rfl

/-- Claim C1 (amended): for a registered name `n`, `delete_env(n)` (with the
directory removal and the registry save succeeding) returns success,
removes the registry entry — a subsequent `get_env_info(n)` returns
absent — and removes the directory tree rooted at `envs_dir/n` when that
path exists; the registered root itself is only removed when it equals
`envs_dir/n`. -/
theorem c1_delete_env_removes_entry (s : EnvState) (fs : List String) (n : String)
    (ent : EnvEntry) (fx : String → Bool) (windows verRC : Bool) (vs : String)
    (h : dlookup n s.envs = some ent) (hnd : (dkeys s.envs).Nodup) :
    delete_env s fs (.ok ()) (.ok ()) n
      = .ok (true, { s with envs := derase n s.envs },
             if fs.contains (pjoin s.envs_dir n) then removeTree (pjoin s.envs_dir n) fs
             else fs)
    ∧ dlookup n (derase n s.envs) = none
    ∧ get_env_info { s with envs := derase n s.envs } fx windows verRC vs n = .ok none := by
  have hs : (dlookup n s.envs).isSome = true := by rw [h]; rfl
  have hnone := dlookup_derase_self n s.envs hnd
  refine ⟨?_, hnone, ?_⟩
  · by_cases hc : pjoin s.envs_dir n ∈ fs
    · simp [delete_env, hs, hc]
    · simp [delete_env, hs, hc]
  · simp only [get_env_info, hnone]

/-- Witness for C1 (amended) at a concrete registry. -/
theorem c1_witness :
    (dlookup "e" [("e", (⟨"d/e", "", ""⟩ : EnvEntry))] = some ⟨"d/e", "", ""⟩
      ∧ (dkeys [("e", (⟨"d/e", "", ""⟩ : EnvEntry))]).Nodup)
    ∧ (delete_env ⟨"d", [("e", ⟨"d/e", "", ""⟩)]⟩ ["d/e"] (.ok ()) (.ok ()) "e"
        = .ok (true, ⟨"d", derase "e" [("e", ⟨"d/e", "", ""⟩)]⟩,
               if (["d/e"].contains (pjoin "d" "e")) then removeTree (pjoin "d" "e") ["d/e"]
               else ["d/e"])
      ∧ dlookup "e" (derase "e" [("e", (⟨"d/e", "", ""⟩ : EnvEntry))]) = none
      ∧ get_env_info ⟨"d", derase "e" [("e", ⟨"d/e", "", ""⟩)]⟩ (fun _ => false)
          false false "" "e" = .ok none) :=
  ⟨⟨rfl, by decide⟩,
    c1_delete_env_removes_entry ⟨"d", [("e", ⟨"d/e", "", ""⟩)]⟩ ["d/e"] "e"
      ⟨"d/e", "", ""⟩ (fun _ => false) false false "" rfl (by decide)⟩

/-- Claim C6, counterexample: with environment `e` registered, a failing
registry save inside `delete_env` (modelling an `IOError` from
`save_config`, which `delete_env` calls OUTSIDE any `try`) propagates the
exception to the caller instead of returning a failure value — the claim
that no exception escapes the registry boundary fails. -/
theorem c6_counterexample :
    delete_env ⟨"d", [("e", ⟨"p", "", ""⟩)]⟩ [] (.ok ()) (.error "磁盘已满") "e"
      = .error "磁盘已满" := by
  rfl

/-- Interpreter resolution always returns without raising: its whole body
is inside `try/except`. -/
theorem get_env_python_path_isOk (s : EnvState) (fx : String → Bool) (windows : Bool)
    (n : String) : (get_env_python_path s fx windows n).isOk = true := by
  unfold get_env_python_path
  cases dlookup n s.envs with
  | none => rfl
  | some info =>
    by_cases hp : info.path = "" <;> simp [hp, Except.isOk, Except.toBool]

/-- Claim C6 (amended): `create_env`, `get_env_info` and
`get_env_python_path` never raise past the registry boundary, for every
outcome of the underlying filesystem and tool calls; but `delete_env` and
`import_env` call `save_config` (and `import_env` also `os.makedirs`)
outside any `try`, so a raising save propagates an exception to the caller
on those two operations. -/
theorem c6_no_raise_except_delete_import
    (s : EnvState) (fs : List String) (venvRC : Bool) (saveRes : Except String Unit)
    (now n p dsc : String) (fx : String → Bool) (windows verRC : Bool) (vs : String)
    (nd ni em em' sp : String) (s2 : EnvState) (fs2 : List String)
    (hdel : (dlookup nd s.envs).isSome = true)
    (himp : (dlookup ni s2.envs).isSome = false) :
    (create_env s fs venvRC saveRes now n p dsc).isOk = true
    ∧ (get_env_info s fx windows verRC vs n).isOk = true
    ∧ (get_env_python_path s fx windows n).isOk = true
    ∧ (delete_env s fs (.ok ()) (.error em) nd).isOk = false
    ∧ (import_env s2 fs2 (.ok ()) (.ok ()) (.error em') now sp ni).isOk = false := by
  refine ⟨?_, ?_, ?_, ?_, ?_⟩
  · unfold create_env
    rcases saveRes with e | u <;>
      cases hl : (dlookup n s.envs).isSome <;> cases venvRC <;> rfl
  · unfold get_env_info
    cases dlookup n s.envs with
    | none => rfl
    | some info =>
      have hA := get_env_python_path_isOk s fx windows n
      rcases hg : get_env_python_path s fx windows n with e | o
      · rw [hg] at hA
        exact absurd hA (by simp [Except.isOk, Except.toBool])
      · cases o <;> rfl
  · exact get_env_python_path_isOk s fx windows n
  · unfold delete_env
    rw [hdel]
    by_cases hc : pjoin s.envs_dir nd ∈ fs
    · simp [hc, Except.isOk, Except.toBool]
    · simp [hc, Except.isOk, Except.toBool]
  · unfold import_env
    rw [himp]
    by_cases hc : pjoin s2.envs_dir ni ∈ fs2
    · simp [hc, Except.isOk, Except.toBool]
    · simp [hc, Except.isOk, Except.toBool]

/-- Witness for C6 (amended) at concrete states. -/
theorem c6_witness :
    ((dlookup "e" [("e", (⟨"p", "", ""⟩ : EnvEntry))]).isSome = true
      ∧ (dlookup "f" ([] : List (String × EnvEntry))).isSome = false)
    ∧ ((create_env ⟨"d", [("e", ⟨"p", "", ""⟩)]⟩ [] true (.error "x") "t" "e" "q" "").isOk = true
      ∧ (get_env_info ⟨"d", [("e", ⟨"p", "", ""⟩)]⟩ (fun _ => false) false false "" "e").isOk = true
      ∧ (get_env_python_path ⟨"d", [("e", ⟨"p", "", ""⟩)]⟩ (fun _ => false) false "e").isOk = true
      ∧ (delete_env ⟨"d", [("e", ⟨"p", "", ""⟩)]⟩ [] (.ok ()) (.error "x") "e").isOk = false
      ∧ (import_env ⟨"d", []⟩ [] (.ok ()) (.ok ()) (.error "x") "t" "src" "f").isOk = false) :=
  ⟨⟨rfl, rfl⟩,
    c6_no_raise_except_delete_import ⟨"d", [("e", ⟨"p", "", ""⟩)]⟩ [] true (.error "x")
      "t" "e" "q" "" (fun _ => false) false false "" "e" "f" "x" "x" "src" ⟨"d", []⟩ []
      rfl rfl⟩

end EnvManager

/-! ## Claims about the package operations engine -/

namespace PackageManager

open PipM

/-- Claim C9, counterexample: for an unpinned name the two operations build
the identical command line, but their emitted events do NOT agree up to the
event channel alone — the failure payloads differ in the operation-specific
message text (`安装包失败:` versus `更新包失败:` before the same stderr). -/
theorem c9_counterexample :
    (install_package "py" "requests" false "boom").cmd
      = (upgrade_package "py" "requests" false "boom").cmd
    ∧ ¬((install_package "py" "requests" false "boom").events
        = ((upgrade_package "py" "requests" false "boom").events.map
            relabel_upgrade_as_install)) := by
  constructor
  · decide
  · decide

/-- Claim C9 (amended): for every package name without an exact-version pin
(`==` not in the name), `install_package` and `upgrade_package` hand the
external installer the identical command line
`[python, -m, pip, install, --upgrade, name]` and return the same boolean;
on success their event traces differ only in the success channel (same
payload), and on failure they emit the same progress events and one
terminal event each on their respective error channels, whose messages
share the stderr text behind operation-specific failure labels. -/
theorem c9_install_upgrade_same_cmd (py name stderr : String) (rc : Bool)
    (h : pinned name = false) :
    (install_package py name rc stderr).cmd = (upgrade_package py name rc stderr).cmd
    ∧ (install_package py name rc stderr).ok = (upgrade_package py name rc stderr).ok
    ∧ (install_package py name true stderr).events
        = ((upgrade_package py name true stderr).events.map relabel_upgrade_as_install)
    ∧ (install_package py name false stderr).events
        = [.progress 0, .progress 100, .installError ("安装包失败: " ++ stderr)]
    ∧ (upgrade_package py name false stderr).events
        = [.progress 0, .progress 100, .upgradeError ("更新包失败: " ++ stderr)] := by
  cases rc <;>
    refine ⟨?_, ?_, ?_, ?_, ?_⟩ <;>
      simp [install_package, upgrade_package, h, relabel_upgrade_as_install]

/-- Witness for C9 (amended) at a concrete unpinned name. -/
theorem c9_witness :
    pinned "requests" = false
    ∧ ((install_package "py" "requests" true "").cmd
          = (upgrade_package "py" "requests" true "").cmd
      ∧ (install_package "py" "requests" true "").ok
          = (upgrade_package "py" "requests" true "").ok
      ∧ (install_package "py" "requests" true "").events
          = ((upgrade_package "py" "requests" true "").events.map relabel_upgrade_as_install)
      ∧ (install_package "py" "requests" false "").events
          = [.progress 0, .progress 100, .installError ("安装包失败: " ++ "")]
      ∧ (upgrade_package "py" "requests" false "").events
          = [.progress 0, .progress 100, .upgradeError ("更新包失败: " ++ "")]) :=
  ⟨by decide, c9_install_upgrade_same_cmd "py" "requests" "" true (by decide)⟩

end PackageManager

namespace PackageManager

open PipM

theorem dlookup_set_parent_self (q p : String) (m : List (String × PkgInfo)) :
    dlookup q (set_parent q p m)
      = (dlookup q m).map (fun i => { i with parent := some p }) := by
  induction m with
  | nil => rfl
  | cons e t ih =>
    simp only [set_parent, List.map_cons] at ih ⊢
    by_cases he : e.1 = q
    · simp [dlookup_cons, he]
    · simp [dlookup_cons, he, ih]

theorem dlookup_set_parent_other (q p x : String) (m : List (String × PkgInfo))
    (hx : x ≠ q) : dlookup x (set_parent q p m) = dlookup x m := by
  induction m with
  | nil => rfl
  | cons e t ih =>
    simp only [set_parent, List.map_cons] at ih ⊢
    have hqx : ¬ q = x := fun hh => hx hh.symm
    by_cases he : e.1 = q
    · have hex : ¬ e.1 = x := fun hh => hx (hh ▸ he)
      simp [dlookup_cons, he, hex, hqx, ih]
    · by_cases hex : e.1 = x <;> simp [dlookup_cons, he, hex, hx, hqx, ih]

theorem isSome_dlookup_set_parent (q p x : String) (m : List (String × PkgInfo)) :
    (dlookup x (set_parent q p m)).isSome = (dlookup x m).isSome := by
  by_cases hx : x = q
  · subst hx
    rw [dlookup_set_parent_self]
    cases dlookup x m <;> rfl
  · rw [dlookup_set_parent_other _ _ _ _ hx]

theorem dlookup_rel_step_not_mem (q name : String) (reqs : List String)
    (a : List (String × PkgInfo)) (hq : q ∉ reqs) :
    dlookup q (rel_step a name reqs) = dlookup q a := by
  induction reqs generalizing a with
  | nil => rfl
  | cons r rs ih =>
    simp only [List.mem_cons, not_or] at hq
    simp only [rel_step, List.foldl_cons] at ih ⊢
    rw [ih _ hq.2]
    split
    · exact dlookup_set_parent_other r name q a hq.1
    · rfl

theorem isSome_rel_step (q name : String) (reqs : List String)
    (a : List (String × PkgInfo)) :
    (dlookup q (rel_step a name reqs)).isSome = (dlookup q a).isSome := by
  induction reqs generalizing a with
  | nil => rfl
  | cons r rs ih =>
    simp only [rel_step, List.foldl_cons] at ih ⊢
    rw [ih]
    split
    · exact isSome_dlookup_set_parent r name q a
    · rfl

theorem parent_set_rel_step (q name : String) (reqs : List String)
    (a : List (String × PkgInfo))
    (hstable : ∃ i, dlookup q a = some i ∧ i.parent = some name) :
    ∃ i, dlookup q (rel_step a name reqs) = some i ∧ i.parent = some name := by
  induction reqs generalizing a with
  | nil => exact hstable
  | cons r rs ih =>
    simp only [rel_step, List.foldl_cons] at ih ⊢
    apply ih
    by_cases hr : r = q
    · subst hr
      obtain ⟨i, hi, hp⟩ := hstable
      have hsome : (dlookup r a).isSome = true := by rw [hi]; rfl
      rw [if_pos hsome, dlookup_set_parent_self, hi]
      exact ⟨_, rfl, by simp [hp]⟩
    · obtain ⟨i, hi, hp⟩ := hstable
      split
      · rw [dlookup_set_parent_other r name q a (fun hh => hr hh.symm)]
        exact ⟨i, hi, hp⟩
      · exact ⟨i, hi, hp⟩

theorem rel_step_sets_parent (q name : String) (reqs : List String)
    (a : List (String × PkgInfo))
    (hq : (dlookup q a).isSome = true) (hmem : q ∈ reqs) :
    ∃ i, dlookup q (rel_step a name reqs) = some i ∧ i.parent = some name := by
  induction reqs generalizing a with
  | nil => exact absurd hmem (List.not_mem_nil q)
  | cons r rs ih =>
    simp only [rel_step, List.foldl_cons] at ih ⊢
    by_cases hr : r = q
    · subst hr
      rw [if_pos hq]
      obtain ⟨i, hi⟩ := Option.isSome_iff_exists.mp hq
      apply parent_set_rel_step
      rw [dlookup_set_parent_self, hi]
      exact ⟨_, rfl, rfl⟩
    · rcases List.mem_cons.mp hmem with h | h
      · exact absurd h.symm hr
      · have hq' : (dlookup q (if (dlookup r a).isSome = true then set_parent r name a
            else a)).isSome = true := by
          split
          · rw [isSome_dlookup_set_parent]; exact hq
          · exact hq
        exact ih _ hq' h

theorem parent_preserved_fold (q : String) (m l a : List (String × PkgInfo))
    (hl : ∀ e ∈ l, e ∈ m)
    (h : ∃ p i, (∃ ep, (p, ep) ∈ m ∧ q ∈ ep.requires)
          ∧ dlookup q a = some i ∧ i.parent = some p) :
    ∃ p i, (∃ ep, (p, ep) ∈ m ∧ q ∈ ep.requires)
      ∧ dlookup q (l.foldl (fun a e => rel_step a e.1 e.2.requires) a) = some i
      ∧ i.parent = some p := by
  induction l generalizing a with
  | nil => exact h
  | cons e t ih =>
    simp only [List.foldl_cons]
    apply ih _ (fun x hx => hl x (List.mem_cons_of_mem _ hx))
    by_cases hqe : q ∈ e.2.requires
    · obtain ⟨p, i, hep, hi, hp⟩ := h
      have hsome : (dlookup q a).isSome = true := by rw [hi]; rfl
      obtain ⟨i', hi', hp'⟩ := rel_step_sets_parent q e.1 e.2.requires a hsome hqe
      exact ⟨e.1, i', ⟨e.2, hl e (List.mem_cons_self _ _), hqe⟩, hi', hp'⟩
    · obtain ⟨p, i, hep, hi, hp⟩ := h
      refine ⟨p, i, hep, ?_, hp⟩
      rw [dlookup_rel_step_not_mem _ _ _ _ hqe, hi]

theorem establish_fold (q : String) (m l a : List (String × PkgInfo))
    (hl : ∀ e ∈ l, e ∈ m)
    (hsome : (dlookup q a).isSome = true)
    (hreq : ∃ e, e ∈ l ∧ q ∈ (Prod.snd e).requires) :
    ∃ p i, (∃ ep, (p, ep) ∈ m ∧ q ∈ ep.requires)
      ∧ dlookup q (l.foldl (fun a e => rel_step a e.1 e.2.requires) a) = some i
      ∧ i.parent = some p := by
  induction l generalizing a with
  | nil =>
    obtain ⟨e, he, _⟩ := hreq
    exact absurd he (List.not_mem_nil e)
  | cons e t ih =>
    simp only [List.foldl_cons]
    by_cases hqe : q ∈ e.2.requires
    · obtain ⟨i', hi', hp'⟩ := rel_step_sets_parent q e.1 e.2.requires a hsome hqe
      apply parent_preserved_fold q m t _ (fun x hx => hl x (List.mem_cons_of_mem _ hx))
      exact ⟨e.1, i', ⟨e.2, hl e (List.mem_cons_self _ _), hqe⟩, hi', hp'⟩
    · obtain ⟨e', he', hq'⟩ := hreq
      rcases List.mem_cons.mp he' with h | h
      · exact absurd (h ▸ hq') hqe
      · apply ih _ (fun x hx => hl x (List.mem_cons_of_mem _ hx)) _ ⟨e', h, hq'⟩
        rw [isSome_rel_step]
        exact hsome

theorem frame_fold (q : String) (l a : List (String × PkgInfo))
    (hnone : ∀ e ∈ l, q ∉ (Prod.snd e).requires) :
    dlookup q (l.foldl (fun a e => rel_step a e.1 e.2.requires) a) = dlookup q a := by
  induction l generalizing a with
  | nil => rfl
  | cons e t ih =>
    simp only [List.foldl_cons]
    rw [ih _ (fun x hx => hnone x (List.mem_cons_of_mem _ hx)),
        dlookup_rel_step_not_mem _ _ _ _ (hnone e (List.mem_cons_self _ _))]

/-- Claim C2, counterexample: `load_packages` on an environment whose
packages are `{A (requires B), B}` (the `pip show` output for A declaring
`Requires: B`) emits records carrying only `version`, `location` and
`install_time` — the record for B has NO `parent` key at all, and in
particular not one equal to A; `load_packages` never invokes the
dependency-linking pass. -/
theorem c2_counterexample :
    load_packages true "" (some [("A", "1.0"), ("B", "2.0")]) ""
        (fun nm => if nm = "A" then (true, ["Name: A", "Location: /site", "Requires: B"])
                   else (true, ["Name: B", "Location: /site", "Requires: "]))
        (fun _ => false) (fun _ => "") none
      = [.progress 0, .progress 25, .progress 62, .progress 100,
         .loaded [("A", [("version", "1.0"), ("location", "/site"), ("install_time", "")]),
                  ("B", [("version", "2.0"), ("location", "/site"), ("install_time", "")])],
         .progress 100]
    ∧ dlookup "parent" [("version", "2.0"), ("location", "/site"), ("install_time", "")]
        = none := by
  constructor
  · decide
  · decide

/-- Claim C2 (amended): the record set emitted by `load_packages` carries no
parent information at all; the dependency-linking pass lives in the
separate, un-invoked `_process_package_relationships`, which over any
`package_info` map does record a requiring package as each requirement's
parent: every package that is required by some package of the map ends the
pass with its `parent` set to a package that declares it as a requirement
(the last such requirer in iteration order when there are several), and a
package that no package requires keeps its record unchanged (parent
absent as `_process_package` initialised it). -/
theorem c2_relationships (m : List (String × PkgInfo)) (q : String)
    (hq : (dlookup q m).isSome = true) :
    ((∃ e, e ∈ m ∧ q ∈ (Prod.snd e).requires) →
        ∃ p i, (∃ ep, (p, ep) ∈ m ∧ q ∈ ep.requires)
          ∧ dlookup q (process_package_relationships m) = some i
          ∧ i.parent = some p)
    ∧ ((∀ e ∈ m, q ∉ (Prod.snd e).requires) →
        dlookup q (process_package_relationships m) = dlookup q m) := by
  constructor
  · intro hreq
    exact establish_fold q m m m (fun _ hx => hx) hq hreq
  · intro hno
    exact frame_fold q m m hno

/-- Witness for C2 (amended) on the two-package map `{A (requires B), B}`:
B ends with parent A, A keeps parent absent. -/
theorem c2_witness :
    (dlookup "B" [("A", (⟨"1.0", "/site", none, ["B"], 0, none⟩ : PkgInfo)),
                  ("B", ⟨"2.0", "/site", none, [], 1, none⟩)]).isSome = true
    ∧ (∃ e, e ∈ [("A", (⟨"1.0", "/site", none, ["B"], 0, none⟩ : PkgInfo)),
                 ("B", ⟨"2.0", "/site", none, [], 1, none⟩)]
          ∧ "B" ∈ (Prod.snd e).requires)
    ∧ (∃ p i, (∃ ep, (p, ep) ∈ [("A", (⟨"1.0", "/site", none, ["B"], 0, none⟩ : PkgInfo)),
                               ("B", ⟨"2.0", "/site", none, [], 1, none⟩)]
                  ∧ "B" ∈ ep.requires)
        ∧ dlookup "B" (process_package_relationships
            [("A", (⟨"1.0", "/site", none, ["B"], 0, none⟩ : PkgInfo)),
             ("B", ⟨"2.0", "/site", none, [], 1, none⟩)]) = some i
        ∧ i.parent = some p)
    ∧ dlookup "B" (process_package_relationships
        [("A", (⟨"1.0", "/site", none, ["B"], 0, none⟩ : PkgInfo)),
         ("B", ⟨"2.0", "/site", none, [], 1, none⟩)])
      = some ⟨"2.0", "/site", none, [], 1, some "A"⟩
    ∧ dlookup "A" (process_package_relationships
        [("A", (⟨"1.0", "/site", none, ["B"], 0, none⟩ : PkgInfo)),
         ("B", ⟨"2.0", "/site", none, [], 1, none⟩)])
      = some ⟨"1.0", "/site", none, ["B"], 0, none⟩ :=
  ⟨by decide,
   ⟨("A", ⟨"1.0", "/site", none, ["B"], 0, none⟩), by decide⟩,
   (c2_relationships
      [("A", (⟨"1.0", "/site", none, ["B"], 0, none⟩ : PkgInfo)),
       ("B", ⟨"2.0", "/site", none, [], 1, none⟩)] "B" (by decide)).1
     ⟨("A", ⟨"1.0", "/site", none, ["B"], 0, none⟩), by decide, by decide⟩,
   by decide, by decide⟩

end PackageManager

namespace PackageManager

open PipM

@[simp] theorem progress_vals_nil : progress_vals [] = [] := rfl

@[simp] theorem progress_vals_cons_progress (n : Nat) (t : List PMEvent) :
    progress_vals (.progress n :: t) = n :: progress_vals t := rfl

@[simp] theorem progress_vals_cons_loaded (m : List (String × List (String × String)))
    (t : List PMEvent) : progress_vals (.loaded m :: t) = progress_vals t := rfl

@[simp] theorem progress_vals_cons_loadError (s : String) (t : List PMEvent) :
    progress_vals (.loadError s :: t) = progress_vals t := rfl

@[simp] theorem progress_vals_append (a b : List PMEvent) :
    progress_vals (a ++ b) = progress_vals a ++ progress_vals b :=
  List.filterMap_append a b _

theorem progress_vals_map_progress (f : Nat → Nat) (l : List Nat) :
    progress_vals (l.map fun i => PMEvent.progress (f i)) = l.map f := by
  induction l with
  | nil => rfl
  | cons a t ih => simp [ih]

theorem countP_loaded_map_progress (f : Nat → Nat) (l : List Nat) :
    ((l.map fun i => PMEvent.progress (f i)).countP is_loaded_event) = 0 := by
  induction l with
  | nil => rfl
  | cons a t ih => simp [List.countP_cons, is_loaded_event, ih]

theorem chain_le_progress_seq (k n : Nat) (hk : k ≤ n) :
    List.Chain' (· ≤ ·)
      ((0 : Nat) :: 25 :: ((List.range k).map (fun i => 25 + ((i + 1) * 75) / n)) ++ [100]) := by
  apply List.Pairwise.chain'
  have hbound : ∀ x ∈ (List.range k).map (fun i => 25 + ((i + 1) * 75) / n), x ≤ 100 := by
    intro x hx
    obtain ⟨i, hi, rfl⟩ := List.mem_map.mp hx
    have hik : i < k := List.mem_range.mp hi
    have hdiv : ((i + 1) * 75) / n ≤ 75 := by
      have h1 : (i + 1) * 75 ≤ n * 75 := Nat.mul_le_mul_right 75 (by omega)
      have h2 : (i + 1) * 75 / n ≤ n * 75 / n := Nat.div_le_div_right h1
      rwa [Nat.mul_div_cancel_left 75 (by omega : 0 < n)] at h2
    omega
  refine List.pairwise_cons.mpr ⟨?_, List.pairwise_cons.mpr ⟨?_, ?_⟩⟩
  · intro y _
    exact Nat.zero_le y
  · intro y hy
    rcases List.mem_append.mp hy with hy | hy
    · obtain ⟨i, _, rfl⟩ := List.mem_map.mp hy
      exact Nat.le_add_right 25 _
    · have : y = 100 := by simpa using hy
      omega
  · refine List.pairwise_append.mpr ⟨?_, ?_, ?_⟩
    · refine List.pairwise_map.mpr ?_
      refine (List.pairwise_lt_range k).imp ?_
      intro i j hij
      exact Nat.add_le_add_left
        (Nat.div_le_div_right (Nat.mul_le_mul_right 75 (by omega))) 25
    · exact List.pairwise_singleton _ _
    · intro x hx y hy
      have hy100 : y = 100 := by simpa using hy
      rw [hy100]
      exact hbound x hx

theorem no_loaded_decomp (L : List PMEvent)
    (hL : ∀ e ∈ L, is_loaded_event e = false) :
    ∀ pre m post, L = pre ++ PMEvent.loaded m :: post →
      post = [PMEvent.progress 100] := by
  intro pre m post h
  exfalso
  have hm : PMEvent.loaded m ∈ L := by
    rw [h]
    exact List.mem_append_right _ (List.mem_cons_self _ _)
  have := hL _ hm
  simp [is_loaded_event] at this

theorem loaded_tail_unique (L : List PMEvent)
    (recs : List (String × List (String × String)))
    (hL : ∀ e ∈ L, is_loaded_event e = false) :
    ∀ pre m post, L ++ [PMEvent.loaded recs, PMEvent.progress 100]
        = pre ++ PMEvent.loaded m :: post → post = [PMEvent.progress 100] := by
  induction L with
  | nil =>
    intro pre m post h
    rw [List.nil_append] at h
    cases pre with
    | nil =>
      rw [List.nil_append] at h
      injection h with h1 h2
      exact h2.symm
    | cons b pre' =>
      rw [List.cons_append] at h
      injection h with h1 h2
      cases pre' with
      | nil =>
        rw [List.nil_append] at h2
        injection h2 with h3 h4
        exact PMEvent.noConfusion h3
      | cons c pre'' =>
        rw [List.cons_append] at h2
        injection h2 with h3 h4
        exact absurd h4.symm (by simp)
  | cons a L' ih =>
    intro pre m post h
    cases pre with
    | nil =>
      rw [List.cons_append, List.nil_append] at h
      injection h with h1 h2
      have := hL a (List.mem_cons_self _ _)
      rw [h1] at this
      simp [is_loaded_event] at this
    | cons b pre' =>
      rw [List.cons_append, List.cons_append] at h
      injection h with h1 h2
      exact ih (fun e he => hL e (List.mem_cons_of_mem _ he)) pre' m post h2

theorem all_not_loaded_front (k n : Nat) :
    ∀ e ∈ (PMEvent.progress 0 :: PMEvent.progress 25 ::
        ((List.range k).map fun i => PMEvent.progress (25 + ((i + 1) * 75) / n))),
      is_loaded_event e = false := by
  intro e he
  rcases List.mem_cons.mp he with rfl | he
  · rfl
  rcases List.mem_cons.mp he with rfl | he
  · rfl
  obtain ⟨i, _, rfl⟩ := List.mem_map.mp he
  rfl

theorem all_not_loaded_pair (a b : PMEvent) (ha : is_loaded_event a = false)
    (hb : is_loaded_event b = false) : ∀ e ∈ [a, b], is_loaded_event e = false := by
  intro e he
  rcases List.mem_cons.mp he with rfl | he
  · exact ha
  rcases List.mem_cons.mp he with rfl | he
  · exact hb
  exact absurd he (List.not_mem_nil e)

theorem all_not_loaded_progress_trace (k n : Nat) (tail : List PMEvent)
    (htail : ∀ e ∈ tail, is_loaded_event e = false) :
    ∀ e ∈ (PMEvent.progress 0 :: PMEvent.progress 25 ::
        ((List.range k).map fun i => PMEvent.progress (25 + ((i + 1) * 75) / n)) ++ tail),
      is_loaded_event e = false := by
  intro e he
  rcases List.mem_cons.mp he with rfl | he
  · rfl
  rcases List.mem_cons.mp he with rfl | he
  · rfl
  rcases List.mem_append.mp he with he | he
  · obtain ⟨i, _, rfl⟩ := List.mem_map.mp he
    rfl
  · exact htail e he

theorem countP_progress_trace (k n : Nat) (tail : List PMEvent) :
    ((PMEvent.progress 0 :: PMEvent.progress 25 ::
        ((List.range k).map fun i => PMEvent.progress (25 + ((i + 1) * 75) / n)) ++ tail).countP
      is_loaded_event) = tail.countP is_loaded_event := by
  simp [List.countP_cons, is_loaded_event, countP_loaded_map_progress]

theorem c3_shape_noloaded (k n : Nat) (hk : k ≤ n) (tail : List PMEvent)
    (htail1 : progress_vals tail = [100])
    (htail2 : ∀ e ∈ tail, is_loaded_event e = false)
    (T : List PMEvent)
    (hT : T = PMEvent.progress 0 :: PMEvent.progress 25 ::
        ((List.range k).map fun i => PMEvent.progress (25 + ((i + 1) * 75) / n)) ++ tail) :
    List.Chain' (· ≤ ·) (progress_vals T)
    ∧ T.countP is_loaded_event ≤ 1
    ∧ (∀ pre m post, T = pre ++ PMEvent.loaded m :: post → post = [PMEvent.progress 100])
    ∧ T.countP is_loaded_event = 0 := by
  subst hT
  have hcount : ((PMEvent.progress 0 :: PMEvent.progress 25 ::
      ((List.range k).map fun i => PMEvent.progress (25 + ((i + 1) * 75) / n)) ++ tail).countP
        is_loaded_event) = 0 := by
    rw [countP_progress_trace]
    exact List.countP_eq_zero.mpr (fun a ha => by rw [htail2 a ha]; exact Bool.false_ne_true)
  refine ⟨?_, ?_, ?_, hcount⟩
  · have h1 : progress_vals (PMEvent.progress 0 :: PMEvent.progress 25 ::
        ((List.range k).map fun i => PMEvent.progress (25 + ((i + 1) * 75) / n)) ++ tail)
        = 0 :: 25 :: ((List.range k).map (fun i => 25 + ((i + 1) * 75) / n)) ++ [100] := by
      simp [progress_vals_map_progress, htail1]
    rw [h1]
    exact chain_le_progress_seq k n hk
  · rw [hcount]
    omega
  · exact no_loaded_decomp _ (all_not_loaded_progress_trace k n tail htail2)

theorem c3_shape_loaded (k n : Nat) (hk : k ≤ n)
    (recs : List (String × List (String × String))) (T : List PMEvent)
    (hT : T = PMEvent.progress 0 :: PMEvent.progress 25 ::
        ((List.range k).map fun i => PMEvent.progress (25 + ((i + 1) * 75) / n))
        ++ [PMEvent.loaded recs, PMEvent.progress 100]) :
    List.Chain' (· ≤ ·) (progress_vals T)
    ∧ T.countP is_loaded_event ≤ 1
    ∧ (∀ pre m post, T = pre ++ PMEvent.loaded m :: post →
        post = [PMEvent.progress 100]) := by
  subst hT
  refine ⟨?_, ?_, ?_⟩
  · have h1 : progress_vals (PMEvent.progress 0 :: PMEvent.progress 25 ::
        ((List.range k).map fun i => PMEvent.progress (25 + ((i + 1) * 75) / n))
        ++ [PMEvent.loaded recs, PMEvent.progress 100])
        = 0 :: 25 :: ((List.range k).map (fun i => 25 + ((i + 1) * 75) / n)) ++ [100] := by
      simp [progress_vals_map_progress]
    rw [h1]
    exact chain_le_progress_seq k n hk
  · rw [countP_progress_trace]
    simp [List.countP_cons, is_loaded_event]
  · exact loaded_tail_unique
      (PMEvent.progress 0 :: PMEvent.progress 25 ::
        ((List.range k).map fun i => PMEvent.progress (25 + ((i + 1) * 75) / n)))
      recs (all_not_loaded_front k n)

end PackageManager

namespace PackageManager

open PipM

theorem all_not_loaded_single (a : PMEvent) (ha : is_loaded_event a = false) :
    ∀ e ∈ [a], is_loaded_event e = false := by
  intro e he
  rcases List.mem_cons.mp he with rfl | he
  · exact ha
  · exact absurd he (List.not_mem_nil e)

/-- Claim C3, counterexample: on a successful `load` of a single package the
emitted progress values are `0, 25, 100, 100` — NOT strictly monotonically
increasing — and the result event is followed by one more progress event
(the unconditional `progress_updated.emit(100)` in the `finally` block),
so it is not emitted after all progress events. -/
theorem c3_counterexample :
    load_packages true "" (some [("requests", "2.31.0")]) "" (fun _ => (true, []))
        (fun _ => false) (fun _ => "") none
      = [.progress 0, .progress 25, .progress 100,
         .loaded [("requests",
            [("version", "2.31.0"), ("location", ""), ("install_time", "")])],
         .progress 100]
    ∧ ¬ List.Chain' (· < ·) (progress_vals
        (load_packages true "" (some [("requests", "2.31.0")]) "" (fun _ => (true, []))
          (fun _ => false) (fun _ => "") none)) := by
  constructor
  · decide
  · have hp : progress_vals
        (load_packages true "" (some [("requests", "2.31.0")]) "" (fun _ => (true, []))
          (fun _ => false) (fun _ => "") none) = [0, 25, 100, 100] := by decide
    rw [hp]
    simp [List.chain'_cons]

/-- Claim C3 (amended): within one `load`, for every outcome of the list
call, the JSON parse, the per-package detail calls and any cancellation
point, the emitted progress values are non-decreasing (not strictly
increasing), the result event is emitted at most once, every result event
is followed by exactly one trailing `progress 100` (the `finally` block)
rather than coming after all progress events, and cancellation before the
end of the package loop means no result event at all. -/
theorem c3_load_packages_events (listRC : Bool) (listStderr : String)
    (listJson : Option (List (String × String))) (parseErr : String)
    (showRes : String → Bool × List String) (fsExists : String → Bool)
    (ctime : String → String) (cancelAt : Option Nat) :
    List.Chain' (· ≤ ·) (progress_vals
      (load_packages listRC listStderr listJson parseErr showRes fsExists ctime cancelAt))
    ∧ (load_packages listRC listStderr listJson parseErr showRes fsExists ctime
        cancelAt).countP is_loaded_event ≤ 1
    ∧ (∀ pre m post,
        load_packages listRC listStderr listJson parseErr showRes fsExists ctime cancelAt
          = pre ++ PMEvent.loaded m :: post → post = [PMEvent.progress 100])
    ∧ (∀ c pkgs, cancelAt = some c → listJson = some pkgs → c < pkgs.length →
        (load_packages listRC listStderr listJson parseErr showRes fsExists ctime
          cancelAt).countP is_loaded_event = 0) := by
  cases listRC with
  | false =>
    have hT : load_packages false listStderr listJson parseErr showRes fsExists ctime cancelAt
        = PMEvent.progress 0 :: PMEvent.progress 25 ::
          ((List.range 0).map fun i => PMEvent.progress (25 + ((i + 1) * 75) / 0))
          ++ [PMEvent.loadError ("获取包列表失败: " ++ listStderr),
              PMEvent.progress 100] := rfl
    obtain ⟨h1, h2, h3, h4⟩ := c3_shape_noloaded 0 0 (Nat.le_refl 0)
      [PMEvent.loadError ("获取包列表失败: " ++ listStderr), PMEvent.progress 100] rfl
      (all_not_loaded_pair (PMEvent.loadError ("获取包列表失败: " ++ listStderr))
        (PMEvent.progress 100) rfl rfl) _ hT
    exact ⟨h1, h2, h3, fun _ _ _ _ _ => h4⟩
  | true =>
    cases listJson with
    | none =>
      have hT : load_packages true listStderr none parseErr showRes fsExists ctime cancelAt
          = PMEvent.progress 0 :: PMEvent.progress 25 ::
            ((List.range 0).map fun i => PMEvent.progress (25 + ((i + 1) * 75) / 0))
            ++ [PMEvent.loadError ("解析包列表失败: " ++ parseErr),
                PMEvent.progress 100] := rfl
      obtain ⟨h1, h2, h3, h4⟩ := c3_shape_noloaded 0 0 (Nat.le_refl 0)
        [PMEvent.loadError ("解析包列表失败: " ++ parseErr), PMEvent.progress 100] rfl
        (all_not_loaded_pair (PMEvent.loadError ("解析包列表失败: " ++ parseErr))
          (PMEvent.progress 100) rfl rfl) _ hT
      exact ⟨h1, h2, h3, fun _ _ _ _ _ => h4⟩
    | some pkgs =>
      cases cancelAt with
      | none =>
        have hnn : ¬ (pkgs.length < pkgs.length) := Nat.lt_irrefl _
        have hT : load_packages true listStderr (some pkgs) parseErr showRes fsExists ctime none
            = PMEvent.progress 0 :: PMEvent.progress 25 ::
              ((List.range pkgs.length).map fun i =>
                PMEvent.progress (25 + ((i + 1) * 75) / pkgs.length))
              ++ [PMEvent.loaded (pkgs.foldl (fun acc e =>
                    dinsert e.1 (load_record showRes fsExists ctime e.1 e.2) acc) []),
                  PMEvent.progress 100] := if_neg hnn
        obtain ⟨h1, h2, h3⟩ := c3_shape_loaded pkgs.length pkgs.length (Nat.le_refl _) _ _ hT
        refine ⟨h1, h2, h3, ?_⟩
        intro c pkgs' hc _ _
        exact absurd hc (by simp)
      | some c =>
        by_cases hcn : min c pkgs.length < pkgs.length
        · have hT : load_packages true listStderr (some pkgs) parseErr showRes fsExists ctime
              (some c)
              = PMEvent.progress 0 :: PMEvent.progress 25 ::
                ((List.range (min c pkgs.length)).map fun i =>
                  PMEvent.progress (25 + ((i + 1) * 75) / pkgs.length))
                ++ [PMEvent.progress 100] := if_pos hcn
          obtain ⟨h1, h2, h3, h4⟩ := c3_shape_noloaded (min c pkgs.length) pkgs.length
            (Nat.min_le_right c pkgs.length) [PMEvent.progress 100] rfl
            (all_not_loaded_single _ rfl) _ hT
          exact ⟨h1, h2, h3, fun _ _ _ _ _ => h4⟩
        · have hT : load_packages true listStderr (some pkgs) parseErr showRes fsExists ctime
              (some c)
              = PMEvent.progress 0 :: PMEvent.progress 25 ::
                ((List.range (min c pkgs.length)).map fun i =>
                  PMEvent.progress (25 + ((i + 1) * 75) / pkgs.length))
                ++ [PMEvent.loaded (pkgs.foldl (fun acc e =>
                      dinsert e.1 (load_record showRes fsExists ctime e.1 e.2) acc) []),
                    PMEvent.progress 100] := if_neg hcn
          obtain ⟨h1, h2, h3⟩ := c3_shape_loaded (min c pkgs.length) pkgs.length
            (Nat.min_le_right _ _) _ _ hT
          refine ⟨h1, h2, h3, ?_⟩
          intro c' pkgs' hc' hj' hlen
          injection hc' with hc'
          injection hj' with hj'
          subst hc'
          subst hj'
          have h5 : min c pkgs.length ≤ c := Nat.min_le_left _ _
          exact absurd (by omega) hcn

/-- Witness for C3 (amended) at a concrete successful two-package load. -/
theorem c3_witness :
    List.Chain' (· ≤ ·) (progress_vals
      (load_packages true "" (some [("A", "1.0"), ("B", "2.0")]) ""
        (fun _ => (true, [])) (fun _ => false) (fun _ => "") none))
    ∧ (load_packages true "" (some [("A", "1.0"), ("B", "2.0")]) ""
        (fun _ => (true, [])) (fun _ => false) (fun _ => "") none).countP
          is_loaded_event ≤ 1 :=
  ⟨(c3_load_packages_events true "" (some [("A", "1.0"), ("B", "2.0")]) ""
      (fun _ => (true, [])) (fun _ => false) (fun _ => "") none).1,
   (c3_load_packages_events true "" (some [("A", "1.0"), ("B", "2.0")]) ""
      (fun _ => (true, [])) (fun _ => false) (fun _ => "") none).2.1⟩

end PackageManager
